import Mathlib

/-!
Verification of the marriage/divorce demographics ETL pipeline
(collector.py, structurer.py, loader.py) against its specification.

The embedding is shallow: Python JSON values become the inductive type
`JValue`; Python dicts become association lists in insertion order;
fallible code returns `Except`; the wall-clock timestamp that
`datetime.utcnow().isoformat()` produces is injected as a `String`
parameter, as the specification's RecordFlattener contract prescribes.
-/

namespace Demo

/-- A JSON value as produced by `json.load` / `json.loads` in Python:
null, booleans, numbers (modelled as rationals, since the pipeline only
passes numbers through and never does float arithmetic), strings,
arrays, and objects (association lists in insertion order). -/
inductive JValue where
  | null
  | bool (b : Bool)
  | num (q : ℚ)
  | str (s : String)
  | arr (elems : List JValue)
  | obj (fields : List (String × JValue))

/-- The fields of one Python dict (insertion-ordered association list). -/
abbrev Fields := List (String × JValue)

/-- Dictionary lookup: first binding of the key (Python dicts have unique
keys, so this is the binding). -/
def dlookup : Fields → String → Option JValue
  | [], _ => none
  | (k', v) :: rest, k => if k' = k then some v else dlookup rest k

/-- Python `k in record`. -/
def hasKey (d : Fields) (k : String) : Bool :=
  (dlookup d k).isSome

/-- Python `record.get(k, default)`. -/
def dgetD (d : Fields) (k : String) (dflt : JValue) : JValue :=
  (dlookup d k).getD dflt

/-- Python `record[k] = v`: replace the existing binding in place, else
append a new binding at the end (dict insertion-order semantics). -/
def dset : Fields → String → JValue → Fields
  | [], k, v => [(k, v)]
  | (k', v') :: rest, k, v =>
      if k' = k then (k, v) :: rest else (k', v') :: dset rest k v

/-- Is the value a JSON object (a Python dict)? -/
def isObj : JValue → Bool
  | .obj _ => true
  | _ => false

/-- Python whitespace, as stripped by `str.strip()` and recognized by
the regex class `\\s` (ASCII range; the page data holds no exotic
whitespace). -/
def isSpaceChar (c : Char) : Bool :=
  c = ' ' || c = '\t' || c = '\n' || c = '\r' || c = '\x0b' || c = '\x0c'

/-- Python `str.strip()`: drop leading and trailing whitespace. -/
def pyStrip (cs : List Char) : List Char :=
  ((cs.dropWhile isSpaceChar).reverse.dropWhile isSpaceChar).reverse

/-- Value of a list of decimal digit characters. -/
def digitsToNat (cs : List Char) : Nat :=
  cs.foldl (fun a c => a * 10 + (c.toNat - 48)) 0

/-- Python `int(s)` on a string, as used on the inner year keys
(loader.py line 79): surrounding whitespace is stripped, an optional
sign is allowed, and the rest must be nonempty decimal digits; anything
else raises `ValueError`, modelled as `none`. -/
def parsePyInt (s : String) : Option Int :=
  match pyStrip s.toList with
  | [] => none
  | '-' :: rest =>
      if !rest.isEmpty && rest.all Char.isDigit then
        some (-(digitsToNat rest : Int))
      else none
  | '+' :: rest =>
      if !rest.isEmpty && rest.all Char.isDigit then
        some ((digitsToNat rest : Int))
      else none
  | cs =>
      if cs.all Char.isDigit then some ((digitsToNat cs : Int)) else none

/-- Numeric parsing of a string as performed by pandas `to_numeric`
(float-style): optional sign, decimal digits with at most one dot.
Exponent/inf/nan forms are not modelled; none occurs in this pipeline's
data, and the claims only depend on non-numeric strings failing. -/
def parsePyFloat (s : String) : Option ℚ :=
  match pyStrip s.toList with
  | [] => none
  | stripped =>
      let sgn : ℚ := match stripped with
        | '-' :: _ => -1
        | _ => 1
      let body : List Char := match stripped with
        | '-' :: rest => rest
        | '+' :: rest => rest
        | l => l
      let ip := body.takeWhile (fun c => c != '.')
      match body.dropWhile (fun c => c != '.') with
      | [] =>
          if !ip.isEmpty && ip.all Char.isDigit then
            some (sgn * (digitsToNat ip : ℚ))
          else none
      | _ :: fp =>
          if (!ip.isEmpty || !fp.isEmpty) && ip.all Char.isDigit
              && fp.all Char.isDigit then
            some (sgn * ((digitsToNat ip : ℚ)
              + (digitsToNat fp : ℚ) / (10 ^ fp.length)))
          else none

/-- Timestamp injection of loader.py lines 84-87: `extracted_at` keeps a
pre-existing value and defaults to the flatten timestamp; `updated_at`
is always overwritten with the flatten timestamp. -/
def stampRecord (ts : String) (r : Fields) : Fields :=
  dset (dset r ("extracted_at") (dgetD r ("extracted_at") (JValue.str ts)))
    ("updated_at") (JValue.str ts)

/-- Body of the inner flattening loop of `load_data_and_upsert`
(loader.py lines 68-89) for one `(year_str, year_data)` pair.
`.ok (some r)` means the record `r` is appended to `flat_records`;
`.ok none` means the `continue` on an unparseable year key
(loader.py line 82); `.error ()` means an exception escapes: when
`year_data` is not a dict, `year_data.copy()` (line 71) raises
`AttributeError` (or, for a list, a later dict operation raises),
and nothing in the loop catches it. -/
def processYearEntry (ts country yearStr : String) : JValue → Except Unit (Option Fields)
  | .obj fields =>
      let r1 := if hasKey fields ("country") then fields
                else dset fields ("country") (JValue.str country)
      if hasKey r1 ("year") then .ok (some (stampRecord ts r1))
      else
        match parsePyInt yearStr with
        | some y => .ok (some (stampRecord ts (dset r1 ("year") (JValue.num (y : ℚ)))))
        | none => .ok none
  | _ => .error ()

/-- The inner loop of the flattener over the `(year_str, year_data)`
pairs of one country (loader.py lines 68-89), collecting the appended
records; an escaping exception aborts everything. -/
def processYearEntries (ts country : String) : List (String × JValue) → Except Unit (List Fields)
  | [] => .ok []
  | (ys, yd) :: rest =>
      match processYearEntry ts country ys yd with
      | .error e => .error e
      | .ok none => processYearEntries ts country rest
      | .ok (some r) =>
          match processYearEntries ts country rest with
          | .error e => .error e
          | .ok rs => .ok (r :: rs)

/-- One iteration of the outer country loop (loader.py lines 63-66): a
country whose data is not a dict is skipped as a whole (warning only). -/
def flattenCountry (ts country : String) : JValue → Except Unit (List Fields)
  | .obj yearEntries => processYearEntries ts country yearEntries
  | _ => .ok []

/-- The flattening stage of `load_data_and_upsert` (loader.py lines
62-89): walk the root object's `(country, country_data)` pairs in
order, building `flat_records`. `.error ()` reports an exception
escaping the loop. -/
def flatten (ts : String) : List (String × JValue) → Except Unit (List Fields)
  | [] => .ok []
  | (c, cv) :: rest =>
      match flattenCountry ts c cv with
      | .error e => .error e
      | .ok rs1 =>
          match flatten ts rest with
          | .error e => .error e
          | .ok rs2 => .ok (rs1 ++ rs2)

/-- The numeric columns the loader coerces (loader.py lines 101-107). -/
def numericCols : List String :=
  [("year"), ("marriage_rate"), ("divorce_rate"), ("extracted_at"), ("updated_at")]

/-- Scalar coercion of one cell. Modelled from the documented contract
of `pd.to_numeric(col, errors=coerce)` used at loader.py line 112
(the pandas library is external to this repository): a number passes
through, a boolean becomes 0/1, a numeric string is parsed, and a value
that cannot be parsed becomes NaN, which loader.py line 115
(`df.where(pd.notna(df), None)`) turns into `None` — here `none`. -/
def coerceNumeric : JValue → Option ℚ
  | .num q => some q
  | .bool b => some (if b then 1 else 0)
  | .str s => parsePyFloat s
  | .null => none
  | .arr _ => none
  | .obj _ => none

/-- The columns of `pd.DataFrame(flat_records)` (loader.py line 96):
the union of record keys in order of first appearance. -/
def dfColumns (rs : List Fields) : List String :=
  ((rs.map (fun r => r.map Prod.fst)).flatten).eraseDups

/-- One cell of the DataFrame after the type handling of loader.py
lines 109-118: a record missing the column holds NaN (which becomes
`None`, here `JValue.null`); cells of the five numeric columns go
through `pd.to_numeric(errors=coerce)` and then NaN becomes `None`. -/
def dfCell (r : Fields) (c : String) : JValue :=
  let raw := dgetD r c JValue.null
  if numericCols.contains c then
    match coerceNumeric raw with
    | some q => JValue.num q
    | none => JValue.null
  else raw

/-- Records of `df.to_dict(records)` after coercion (loader.py lines 96-118):
every record acquires every column. -/
def dfRecords (rs : List Fields) : List Fields :=
  let cols := dfColumns rs
  rs.map (fun r => cols.map (fun c => (c, dfCell r c)))

/-- Loader pipeline: `load_data_and_upsert` from the loaded JSON value up to the list of
records handed to the upsert call: the root-type check of loader.py
lines 47-49 returns early (`none`) when the root is not a dict, so the
flattening loop is never reached; otherwise the flatten result (which
may be an escaping exception) followed by the DataFrame coercion. -/
def loaderPipeline (data : JValue) (ts : String) : Option (Except Unit (List Fields)) :=
  match data with
  | .obj entries => some ((flatten ts entries).map dfRecords)
  | _ => none

/-- The structurer stage (structurer.py lines 92-99) as a function of
the `json.loads` outcome on the service payload: a parse failure is
caught and the process exits before `json.dump` runs (nothing
persisted, `none`); a successfully parsed value is written to
`structured_data.json` verbatim — there is no check that its root is a
mapping. -/
def structurerPersist : Option JValue → Option JValue
  | none => none
  | some v => some v

/-- Does every inner value of every dict-valued country entry parse as
a dict? This is the precondition under which the flattening loop never
meets a `year_data` without a `.copy()` method. -/
def allInnerDicts (entries : List (String × JValue)) : Bool :=
  entries.all (fun ce =>
    match ce.2 with
    | .obj yes => yes.all (fun ye => isObj ye.2)
    | _ => true)

/-- The record the flattening loop builds for one qualifying
`(country, yearStr, fields)` triple (loader.py lines 71-87); returns
`fields` unchanged in the unreachable non-qualifying case. -/
def buildRecord (ts country yearStr : String) (fields : Fields) : Fields :=
  let r1 := if hasKey fields ("country") then fields
            else dset fields ("country") (JValue.str country)
  if hasKey r1 ("year") then stampRecord ts r1
  else
    match parsePyInt yearStr with
    | some y => stampRecord ts (dset r1 ("year") (JValue.num (y : ℚ)))
    | none => fields

/-- Spec-side emission decision for one `(yearKey, innerValue)` pair:
a record is produced exactly when the inner value is a mapping and
either a `year` field is embedded or the inner key parses as an
integer. -/
def specYearEntry (ts c : String) (ye : String × JValue) : Option Fields :=
  match ye.2 with
  | .obj fields =>
      if hasKey fields ("year") || (parsePyInt ye.1).isSome then
        some (buildRecord ts c ye.1 fields)
      else none
  | _ => none

/-- Spec-side flattening, following the specification's words: exactly
one flat record per `(country, yearKey)` pair whose inner value is a
mapping and which either embeds a `year` field or whose inner key
parses as an integer; every other entry contributes nothing, and a
country entry whose value is not a mapping contributes nothing. -/
def flattenSpec (ts : String) (entries : List (String × JValue)) : List Fields :=
  entries.flatMap (fun ce =>
    match ce.2 with
    | .obj yes => yes.filterMap (specYearEntry ts ce.1)
    | _ => [])

/-- An element of the parsed markup tree, as far as the main-content
selection of collector.py lines 38-48 observes it: the length of its
`get_text(strip=True)` text. -/
structure Element where
  textLen : Nat
deriving Repr, DecidableEq

/-- The prioritized main-content selectors of collector.py line 39. -/
def contentSelectors : List String :=
  [("main"), ("article"), (".content"), (".post-content"), (".entry-content")]

/-- The selector loop of collector.py lines 38-42: each iteration
rebinds `main_content` to `soup.select_one(selector)` and breaks when
the element exists and its stripped text exceeds 1000 characters.
When no selector qualifies, `main_content` is left at the value of the
final iteration — the last selector's match, qualifying or not. -/
def selectLoop (q : String → Option Element) : List String → Option Element
  | [] => none
  | [s] => q s
  | s :: rest =>
      match q s with
      | some e => if 1000 < e.textLen then some e else selectLoop q rest
      | none => selectLoop q rest

/-- Main-content extraction of collector.py lines 38-48: run the
selector loop, fall back to `soup.find("body")` only when the loop left
`main_content` as `None`, and raise (`.error ()`) when even the body is
absent. -/
def extractMain (q : String → Option Element) (body : Option Element) : Except Unit Element :=
  match selectLoop q contentSelectors with
  | some e => .ok e
  | none =>
      match body with
      | some b => .ok b
      | none => .error ()

/-- First selector whose matched element's text exceeds 1000
characters, in priority order. -/
def firstQualifying (q : String → Option Element) : List String → Option Element
  | [] => none
  | s :: rest =>
      match q s with
      | some e => if 1000 < e.textLen then some e else firstQualifying q rest
      | none => firstQualifying q rest

/-- Spec-side main-content selection, following the specification's
words: the first selector whose extracted text exceeds 1000 characters;
the full body if no selector qualifies; an error if the body is also
absent. -/
def extractMainSpec (q : String → Option Element) (body : Option Element) : Except Unit Element :=
  match firstQualifying q contentSelectors with
  | some e => .ok e
  | none =>
      match body with
      | some b => .ok b
      | none => .error ()

/-- The boilerplate keywords of collector.py lines 55-56. -/
def skipPhrases : List String :=
  [("menu"), ("search"), ("home"), ("about"), ("contact"), ("donate"),
   ("twitter"), ("facebook"), ("share"), ("embed"), ("download")]

/-- Does the needle occur as a contiguous run at the head of the
haystack? -/
def matchesAt : List Char → List Char → Bool
  | [], _ => true
  | _ :: _, [] => false
  | c :: cs, d :: ds => c == d && matchesAt cs ds

/-- Does the needle occur as a contiguous run anywhere in the list? -/
def hasSubList (needle : List Char) : List Char → Bool
  | [] => needle.isEmpty
  | l@(_ :: rest) => matchesAt needle l || hasSubList needle rest

/-- Substring containment, Python `phrase in line`. -/
def containsSub (hay needle : String) : Bool :=
  hasSubList needle.toList hay.toList

/-- Character class of the regex `^[\d\s\-–,\.%\(\)\[\]]+$` at
collector.py line 66 (ASCII digits and whitespace; the page data holds
no other kind). -/
def numericPunctChar (c : Char) : Bool :=
  c.isDigit || isSpaceChar c
    || c = '-' || c = '–' || c = ',' || c = '.' || c = '%'
    || c = '(' || c = ')' || c = '[' || c = ']'

/-- Does `re.match(r'^[\d\s\-–,\.%\(\)\[\]]+$', line)` succeed: at
least one character, all from the class. -/
def isNumericPunctLine (cs : List Char) : Bool :=
  !cs.isEmpty && cs.all numericPunctChar

/-- Python `str.lower()` (ASCII; the boilerplate keywords are ASCII). -/
def pyLower (cs : List Char) : List Char :=
  cs.map Char.toLower

/-- The per-line filter of collector.py lines 58-69 applied to one
already-stripped line: drop empty or short lines, drop lines containing
a boilerplate keyword (case-insensitive substring), drop purely
numeric/punctuation lines. -/
def keepLine (l : List Char) : Bool :=
  if l.isEmpty || l.length < 15 then false
  else if skipPhrases.any (fun p => hasSubList p.toList (pyLower l)) then false
  else if isNumericPunctLine l then false
  else true

/-- The line-filter loop of collector.py lines 58-69: each line is
stripped, then kept or dropped. -/
def cleanLines (lines : List String) : List String :=
  lines.filterMap (fun l =>
    if keepLine (pyStrip l.toList) then some (String.mk (pyStrip l.toList)) else none)

/-- A persisted table row, with the schema the loader documents
(loader.py lines 138-146): composite key `(country, year)`, nullable
numeric non-key columns. -/
structure Row where
  country : String
  year : Int
  marriage_rate : Option ℚ
  divorce_rate : Option ℚ
  extracted_at : Option ℚ
  updated_at : Option ℚ
deriving Repr, DecidableEq

/-- The composite key of a row. -/
def rkey (r : Row) : String × Int :=
  (r.country, r.year)

/-- Modelled from the spec: the hosted table store (an external
collaborator reached through `supabase.table(...).upsert(records,
on_conflict="country, year")`, loader.py lines 125-128) applies each
submitted record in order; "an upsert either inserts a new row or
overwrites an existing row's non-key fields" — overwriting every
non-key field of a row with the key amounts to replacing the row. -/
def upsertRow (t : List Row) (r : Row) : List Row :=
  if t.any (fun x => rkey x = rkey r) then
    t.map (fun x => if rkey x = rkey r then r else x)
  else t ++ [r]

/-- Modelled from the spec: a batched upsert applies the records in
sequence order. -/
def upsertBatch (t : List Row) (rs : List Row) : List Row :=
  rs.foldl upsertRow t

/-- Well-formedness of a table: pairwise distinct `(country, year)`
keys, the uniqueness the store enforces. -/
def nodupKeys : List Row → Bool
  | [] => true
  | r :: rest => !(rest.any (fun x => rkey x = rkey r)) && nodupKeys rest

/-- The row the store reports for a key (the unique one, when keys are
distinct). -/
def findByKey (t : List Row) (k : String × Int) : Option Row :=
  t.find? (fun x => rkey x = k)

/-- The last record of a batch carrying a given key. -/
def lastWithKey : List Row → (String × Int) → Option Row
  | [], _ => none
  | r :: rest, k =>
      match lastWithKey rest k with
      | some x => some x
      | none => if rkey r = k then some r else none

/-- An inner value in the heap model: a reference to a heap cell
holding an inner record dict, or a plain non-dict value. -/
inductive HInner where
  | href (a : Nat)
  | hval (v : JValue)

/-- A country entry's value in the heap model of the flattening loop:
either a dict of `(year_str, year_data)` pairs or a non-dict value. -/
inductive HCountry where
  | hdict (yearEntries : List (String × HInner))
  | hplain (v : JValue)

/-- The mutable store of inner record dicts. Only these objects are
ever written to by the flattening loop, so they are the only ones
modelled as mutable. -/
abbrev Heap := List Fields

/-- Heap write `cell[k] = v` on the heap object at address `a`. -/
def heapSet (h : Heap) (a : Nat) (k : String) (v : JValue) : Heap :=
  h.set a (dset (h.getD a []) k v)

/-- The timestamp writes of loader.py lines 84-87 performed on the heap
object at address `r`. -/
def stampH (ts : String) (h : Heap) (r : Nat) : Heap :=
  let h1 := heapSet h r ("extracted_at") (dgetD (h.getD r []) ("extracted_at") (JValue.str ts))
  heapSet h1 r ("updated_at") (JValue.str ts)

/-- Heap-model body of the inner flattening loop (loader.py lines
68-89): `record = year_data.copy()` allocates a fresh cell holding the
same bindings, and every subsequent write targets that fresh cell.
Returns the address appended to `flat_records` (or `none` on the
unparseable-year `continue`, or `.error ()` when `year_data` is not a
dict and the `.copy()` raises). -/
def processYearEntryH (ts country yearStr : String) (yd : HInner) (h : Heap) :
    Except Unit (Option Nat) × Heap :=
  match yd with
  | .hval _ => (.error (), h)
  | .href a =>
      let r := h.length
      let h1 := h ++ [h.getD a []]
      let h2 := if hasKey (h1.getD r []) ("country") then h1
                else heapSet h1 r ("country") (JValue.str country)
      if hasKey (h2.getD r []) ("year") then (.ok (some r), stampH ts h2 r)
      else
        match parsePyInt yearStr with
        | some y => (.ok (some r), stampH ts (heapSet h2 r ("year") (JValue.num (y : ℚ))) r)
        | none => (.ok none, h2)

/-- Heap-model inner loop over one country's year entries. -/
def processYearEntriesH (ts country : String) :
    List (String × HInner) → Heap → Except Unit (List Nat) × Heap
  | [], h => (.ok [], h)
  | (ys, yd) :: rest, h =>
      match processYearEntryH ts country ys yd h with
      | (.error e, h1) => (.error e, h1)
      | (.ok none, h1) => processYearEntriesH ts country rest h1
      | (.ok (some r), h1) =>
          match processYearEntriesH ts country rest h1 with
          | (.error e, h2) => (.error e, h2)
          | (.ok rs, h2) => (.ok (r :: rs), h2)

/-- Heap-model flattening loop (loader.py lines 62-89) over the
document; returns the addresses of the appended records together with
the final heap. -/
def flattenH (ts : String) :
    List (String × HCountry) → Heap → Except Unit (List Nat) × Heap
  | [], h => (.ok [], h)
  | (_, .hplain _) :: rest, h => flattenH ts rest h
  | (c, .hdict yes) :: rest, h =>
      match processYearEntriesH ts c yes h with
      | (.error e, h1) => (.error e, h1)
      | (.ok rs1, h1) =>
          match flattenH ts rest h1 with
          | (.error e, h2) => (.error e, h2)
          | (.ok rs2, h2) => (.ok (rs1 ++ rs2), h2)

/-- Heap extension: the final heap keeps every pre-existing cell
unchanged (new cells may have been appended after them). -/
def HeapExt (h h' : Heap) : Prop :=
  h.length ≤ h'.length ∧ h'.take h.length = h

theorem dlookup_dset_self (d : Fields) (k : String) (v : JValue) :
    dlookup (dset d k v) k = some v := by
  induction d with
  | nil => simp [dset, dlookup]
  | cons hd tl ih =>
    obtain ⟨k', v'⟩ := hd
    by_cases hk : k' = k
    · subst hk
      simp [dset, dlookup]
    · simp [dset, dlookup, hk, ih]

theorem dlookup_dset_ne (d : Fields) (k k' : String) (v : JValue) (h : k ≠ k') :
    dlookup (dset d k v) k' = dlookup d k' := by
  induction d with
  | nil => simp [dset, dlookup, h]
  | cons hd tl ih =>
    obtain ⟨a, b⟩ := hd
    by_cases ha : a = k
    · subst ha
      simp [dset, dlookup, h]
    · simp [dset, dlookup, ha, ih]

theorem hasKey_dset_ne (d : Fields) (k k' : String) (v : JValue) (h : k ≠ k') :
    hasKey (dset d k v) k' = hasKey d k' := by
  simp [hasKey, dlookup_dset_ne d k k' v h]

theorem dgetD_dset_ne (d : Fields) (k k' : String) (v dflt : JValue) (h : k ≠ k') :
    dgetD (dset d k v) k' dflt = dgetD d k' dflt := by
  simp [dgetD, dlookup_dset_ne d k k' v h]

theorem dlookup_stampRecord_updated (ts : String) (r : Fields) :
    dlookup (stampRecord ts r) ("updated_at") = some (JValue.str ts) := by
  simp [stampRecord, dlookup_dset_self]

theorem dlookup_stampRecord_extracted (ts : String) (r : Fields) :
    dlookup (stampRecord ts r) ("extracted_at") = some (dgetD r ("extracted_at") (JValue.str ts)) := by
  rw [stampRecord, dlookup_dset_ne _ _ _ _ (by decide), dlookup_dset_self]

theorem dlookup_stampRecord_other (ts : String) (r : Fields) (k : String)
    (h1 : ("extracted_at") ≠ k) (h2 : ("updated_at") ≠ k) :
    dlookup (stampRecord ts r) k = dlookup r k := by
  rw [stampRecord, dlookup_dset_ne _ _ _ _ h2, dlookup_dset_ne _ _ _ _ h1]

theorem hasKey_r1_year (c : String) (fields : Fields) :
    hasKey (if hasKey fields ("country") then fields
            else dset fields ("country") (JValue.str c)) ("year")
      = hasKey fields ("year") := by
  by_cases hc : hasKey fields ("country")
  · simp [hc]
  · simp [hc, hasKey_dset_ne fields ("country") ("year") (JValue.str c) (by decide)]

theorem processYearEntry_obj (ts c ys : String) (fields : Fields) :
    processYearEntry ts c ys (JValue.obj fields) =
      .ok (if hasKey fields ("year") || (parsePyInt ys).isSome
           then some (buildRecord ts c ys fields) else none) := by
  simp only [processYearEntry, buildRecord]
  rw [hasKey_r1_year]
  by_cases hy : hasKey fields ("year")
  · simp [hy]
  · simp only [hy, if_neg, Bool.false_or, if_false]
    cases hp : parsePyInt ys with
    | none => simp [hp]
    | some y => simp [hp]

theorem processYearEntries_eq_filterMap (ts c : String) (yes : List (String × JValue))
    (h : yes.all (fun ye => isObj ye.2) = true) :
    processYearEntries ts c yes = .ok (yes.filterMap (specYearEntry ts c)) := by
  induction yes with
  | nil => simp [processYearEntries]
  | cons ye rest ih =>
    obtain ⟨ys, yd⟩ := ye
    simp only [List.all_cons, Bool.and_eq_true] at h
    obtain ⟨hyd, hrest⟩ := h
    cases yd with
    | obj fields =>
      rw [processYearEntries, processYearEntry_obj]
      cases hcond : (hasKey fields ("year") || (parsePyInt ys).isSome) with
      | true =>
        simp only [hcond, if_true]
        rw [ih hrest]
        simp [specYearEntry, hcond]
      | false =>
        simp only [hcond, Bool.false_eq_true, if_false]
        rw [ih hrest]
        simp [specYearEntry, hcond]
    | null => simp [isObj] at hyd
    | bool b => simp [isObj] at hyd
    | num q => simp [isObj] at hyd
    | str s => simp [isObj] at hyd
    | arr es => simp [isObj] at hyd

theorem flattenCountry_not_obj (ts c : String) (v : JValue) (h : isObj v = false) :
    flattenCountry ts c v = .ok [] := by
  cases v with
  | obj yes => simp [isObj] at h
  | null => rfl
  | bool b => rfl
  | num q => rfl
  | str s => rfl
  | arr es => rfl

theorem flatten_eq_flattenSpec (ts : String) (entries : List (String × JValue))
    (h : allInnerDicts entries = true) :
    flatten ts entries = .ok (flattenSpec ts entries) := by
  induction entries with
  | nil => simp [flatten, flattenSpec]
  | cons ce rest ih =>
    obtain ⟨c, cv⟩ := ce
    simp only [allInnerDicts, List.all_cons, Bool.and_eq_true] at h
    obtain ⟨hcv, hrest⟩ := h
    have ihr : flatten ts rest = .ok (flattenSpec ts rest) := by
      apply ih
      simpa [allInnerDicts] using hrest
    cases cv with
    | obj yes =>
      rw [flatten, flattenCountry, processYearEntries_eq_filterMap ts c yes hcv, ihr]
      simp [flattenSpec]
    | null => rw [flatten, flattenCountry_not_obj ts c JValue.null rfl, ihr]; simp [flattenSpec]
    | bool b => rw [flatten, flattenCountry_not_obj ts c (JValue.bool b) rfl, ihr]; simp [flattenSpec]
    | num q => rw [flatten, flattenCountry_not_obj ts c (JValue.num q) rfl, ihr]; simp [flattenSpec]
    | str s => rw [flatten, flattenCountry_not_obj ts c (JValue.str s) rfl, ihr]; simp [flattenSpec]
    | arr es => rw [flatten, flattenCountry_not_obj ts c (JValue.arr es) rfl, ihr]; simp [flattenSpec]

theorem processYearEntry_some_stamp (ts c ys : String) (yd : JValue) (r : Fields)
    (h : processYearEntry ts c ys yd = .ok (some r)) :
    ∃ r0, r = stampRecord ts r0 := by
  cases yd with
  | obj fields =>
    simp only [processYearEntry] at h
    by_cases hy : hasKey (if hasKey fields ("country") then fields
        else dset fields ("country") (JValue.str c)) ("year") = true
    · simp only [hy, if_true] at h
      exact ⟨_, (by injection h with h1; injection h1 with h2; exact h2.symm)⟩
    · simp only [hy, if_false] at h
      cases hp : parsePyInt ys with
      | some y =>
        rw [hp] at h
        exact ⟨_, (by injection h with h1; injection h1 with h2; exact h2.symm)⟩
      | none =>
        rw [hp] at h
        simp at h
  | null => exact Except.noConfusion h
  | bool b => exact Except.noConfusion h
  | num q => exact Except.noConfusion h
  | str s => exact Except.noConfusion h
  | arr es => exact Except.noConfusion h

theorem processYearEntry_ok_some_cases (ts c ys : String) (yd : JValue) (r : Fields)
    (h : processYearEntry ts c ys yd = .ok (some r)) :
    ∃ fields, yd = JValue.obj fields ∧ r = buildRecord ts c ys fields ∧
      (hasKey fields ("year") || (parsePyInt ys).isSome) = true := by
  cases yd with
  | obj fields =>
    rw [processYearEntry_obj] at h
    cases hcond : (hasKey fields ("year") || (parsePyInt ys).isSome) with
    | true =>
      simp only [hcond, if_true] at h
      injection h with h1
      injection h1 with h2
      exact ⟨fields, rfl, h2.symm, hcond⟩
    | false =>
      simp only [hcond, Bool.false_eq_true, if_false] at h
      exact absurd h (by simp)
  | null => exact Except.noConfusion h
  | bool b => exact Except.noConfusion h
  | num q => exact Except.noConfusion h
  | str s => exact Except.noConfusion h
  | arr es => exact Except.noConfusion h

theorem processYearEntries_ok_mem (ts c : String) (yes : List (String × JValue))
    (rs : List Fields) (h : processYearEntries ts c yes = .ok rs)
    (r : Fields) (hr : r ∈ rs) :
    ∃ r0, r = stampRecord ts r0 := by
  induction yes generalizing rs with
  | nil =>
    simp only [processYearEntries] at h
    injection h with h1
    subst h1
    cases hr
  | cons ye rest ih =>
    obtain ⟨ys, yd⟩ := ye
    rw [processYearEntries] at h
    cases hpe : processYearEntry ts c ys yd with
    | error e => rw [hpe] at h; exact Except.noConfusion h
    | ok o =>
      cases o with
      | none =>
        rw [hpe] at h
        exact ih rs h hr
      | some r' =>
        rw [hpe] at h
        cases hrec : processYearEntries ts c rest with
        | error e => rw [hrec] at h; exact Except.noConfusion h
        | ok rs' =>
          rw [hrec] at h
          injection h with h1
          subst h1
          rcases List.mem_cons.mp hr with hr | hr
          · subst hr
            exact processYearEntry_some_stamp ts c ys yd _ hpe
          · exact ih rs' hrec hr

theorem flatten_ok_mem (ts : String) (entries : List (String × JValue))
    (rs : List Fields) (h : flatten ts entries = .ok rs)
    (r : Fields) (hr : r ∈ rs) :
    ∃ r0, r = stampRecord ts r0 := by
  induction entries generalizing rs with
  | nil =>
    simp only [flatten] at h
    injection h with h1
    subst h1
    cases hr
  | cons ce rest ih =>
    obtain ⟨c, cv⟩ := ce
    rw [flatten] at h
    cases hfc : flattenCountry ts c cv with
    | error e => rw [hfc] at h; exact Except.noConfusion h
    | ok rs1 =>
      rw [hfc] at h
      cases hrec : flatten ts rest with
      | error e => rw [hrec] at h; exact Except.noConfusion h
      | ok rs2 =>
        rw [hrec] at h
        injection h with h1
        subst h1
        rcases List.mem_append.mp hr with hr | hr
        · cases cv with
          | obj yes => exact processYearEntries_ok_mem ts c yes rs1 hfc r hr
          | null => injection hfc with h2; subst h2; cases hr
          | bool b => injection hfc with h2; subst h2; cases hr
          | num q => injection hfc with h2; subst h2; cases hr
          | str s => injection hfc with h2; subst h2; cases hr
          | arr es => injection hfc with h2; subst h2; cases hr
        · exact ih rs2 hrec hr

theorem buildRecord_updated (ts c ys : String) (fields : Fields)
    (hcond : (hasKey fields ("year") || (parsePyInt ys).isSome) = true) :
    dlookup (buildRecord ts c ys fields) ("updated_at") = some (JValue.str ts) := by
  simp only [buildRecord]
  rw [hasKey_r1_year]
  cases hy : hasKey fields ("year") with
  | true => simp only [if_true]; exact dlookup_stampRecord_updated ts _
  | false =>
    simp only [Bool.false_eq_true, if_false]
    rw [hy, Bool.false_or] at hcond
    cases hp : parsePyInt ys with
    | some y => exact dlookup_stampRecord_updated ts _
    | none => rw [hp] at hcond; simp at hcond

theorem buildRecord_extracted (ts c ys : String) (fields : Fields)
    (hcond : (hasKey fields ("year") || (parsePyInt ys).isSome) = true) :
    dlookup (buildRecord ts c ys fields) ("extracted_at")
      = some (dgetD fields ("extracted_at") (JValue.str ts)) := by
  simp only [buildRecord]
  rw [hasKey_r1_year]
  cases hy : hasKey fields ("year") with
  | true =>
    simp only [if_true]
    rw [dlookup_stampRecord_extracted]
    by_cases hc : hasKey fields ("country")
    · simp [hc]
    · simp [hc, dgetD_dset_ne fields ("country") ("extracted_at") (JValue.str c) _ (by decide)]
  | false =>
    simp only [Bool.false_eq_true, if_false]
    rw [hy, Bool.false_or] at hcond
    cases hp : parsePyInt ys with
    | some y =>
      rw [dlookup_stampRecord_extracted,
        dgetD_dset_ne _ ("year") ("extracted_at") _ _ (by decide)]
      by_cases hc : hasKey fields ("country")
      · simp [hc]
      · simp [hc, dgetD_dset_ne fields ("country") ("extracted_at") (JValue.str c) _ (by decide)]
    | none => rw [hp] at hcond; simp at hcond

theorem dlookup_stampRecord_country (ts : String) (r : Fields) :
    dlookup (stampRecord ts r) ("country") = dlookup r ("country") :=
  dlookup_stampRecord_other ts r ("country") (by decide) (by decide)

theorem dlookup_stampRecord_year (ts : String) (r : Fields) :
    dlookup (stampRecord ts r) ("year") = dlookup r ("year") :=
  dlookup_stampRecord_other ts r ("year") (by decide) (by decide)

theorem buildRecord_country_kept (ts c ys : String) (fields : Fields)
    (hck : hasKey fields ("country") = true) :
    dlookup (buildRecord ts c ys fields) ("country") = dlookup fields ("country") := by
  simp only [buildRecord, hck, if_true]
  cases hy : hasKey fields ("year") with
  | true =>
    simp only [if_true]
    rw [dlookup_stampRecord_country]
  | false =>
    simp only [Bool.false_eq_true, if_false]
    cases hp : parsePyInt ys with
    | some y =>
      rw [dlookup_stampRecord_country,
        dlookup_dset_ne _ ("year") ("country") _ (by decide)]
    | none => rfl

theorem buildRecord_country_injected (ts c ys : String) (fields : Fields)
    (hck : hasKey fields ("country") = false)
    (hcond : (hasKey fields ("year") || (parsePyInt ys).isSome) = true) :
    dlookup (buildRecord ts c ys fields) ("country") = some (JValue.str c) := by
  simp only [buildRecord, hck, Bool.false_eq_true, if_false]
  have hy1 : hasKey (dset fields ("country") (JValue.str c)) ("year") = hasKey fields ("year") :=
    hasKey_dset_ne fields ("country") ("year") (JValue.str c) (by decide)
  rw [hy1]
  cases hy : hasKey fields ("year") with
  | true =>
    simp only [if_true]
    rw [dlookup_stampRecord_country, dlookup_dset_self]
  | false =>
    simp only [Bool.false_eq_true, if_false]
    rw [hy, Bool.false_or] at hcond
    cases hp : parsePyInt ys with
    | some y =>
      rw [dlookup_stampRecord_country,
        dlookup_dset_ne _ ("year") ("country") _ (by decide), dlookup_dset_self]
    | none => rw [hp] at hcond; simp at hcond

theorem buildRecord_year_kept (ts c ys : String) (fields : Fields)
    (hyk : hasKey fields ("year") = true) :
    dlookup (buildRecord ts c ys fields) ("year") = dlookup fields ("year") := by
  simp only [buildRecord]
  rw [hasKey_r1_year, hyk]
  simp only [if_true]
  rw [dlookup_stampRecord_year]
  by_cases hc : hasKey fields ("country")
  · simp [hc]
  · simp [hc, dlookup_dset_ne fields ("country") ("year") (JValue.str c) (by decide)]

theorem buildRecord_year_injected (ts c ys : String) (fields : Fields) (y : Int)
    (hyk : hasKey fields ("year") = false) (hp : parsePyInt ys = some y) :
    dlookup (buildRecord ts c ys fields) ("year") = some (JValue.num (y : ℚ)) := by
  simp only [buildRecord]
  rw [hasKey_r1_year, hyk]
  simp only [Bool.false_eq_true, if_false]
  rw [hp, dlookup_stampRecord_year, dlookup_dset_self]

/-- Claim C1 (counterexample): on the input `{"France": {"2019": 42}}`,
whose root is a mapping of mappings, the flattening loop raises
(`year_data.copy()` on the integer 42 has no `copy` attribute) instead
of skipping the non-mapping inner entry, so flatten neither emits zero
records nor returns without raising, contrary to the claim. -/
theorem c1_counterexample :
    flatten ("T") [(("France"), JValue.obj [(("2019"), JValue.num 42)])] = .error ()
      ∧ isObj (JValue.obj [(("2019"), JValue.num 42)]) = true :=
  ⟨rfl, rfl⟩

/-- Claim C1 (amended): for every StructuredDocument whose root is a
mapping and in which every inner value of every mapping-valued country
entry is itself a mapping, flatten returns without raising exactly one
FlatRecord per (country, yearKey) pair that either embeds a `year`
field or whose inner key parses as an integer; entries with an
unparseable year and country entries whose value is not a mapping are
skipped. -/
theorem c1_flatten_produces_one_record_per_pair (ts : String)
    (entries : List (String × JValue)) (h : allInnerDicts entries = true) :
    flatten ts entries = .ok (flattenSpec ts entries) :=
  flatten_eq_flattenSpec ts entries h

/-- Claim C1 witness: a concrete run of the amended theorem, with one
qualifying pair, one non-mapping country entry, and one unparseable
year key. -/
theorem c1_witness :
    flatten ("T")
      [(("France"), JValue.obj [(("2019"), JValue.obj [(("year"), JValue.num 2019)])]),
       (("Atlantis"), JValue.num 5),
       (("Spain"), JValue.obj [(("not-a-year"), JValue.obj [])])]
      = .ok [[(("year"), JValue.num 2019), (("country"), JValue.str ("France")),
              (("extracted_at"), JValue.str ("T")), (("updated_at"), JValue.str ("T"))]] :=
  (c1_flatten_produces_one_record_per_pair ("T")
    [(("France"), JValue.obj [(("2019"), JValue.obj [(("year"), JValue.num 2019)])]),
     (("Atlantis"), JValue.num 5),
     (("Spain"), JValue.obj [(("not-a-year"), JValue.obj [])])] rfl).trans rfl

/-- Claim C3: every record flatten emits carries `updated_at` equal to
the flatten timestamp, and `extracted_at` equal to the record's
pre-existing value when one is present, else that same timestamp (the
second conjunct states this at the loop body, where the source record
is visible). -/
theorem c3_timestamps :
    (∀ ts entries rs, flatten ts entries = .ok rs → ∀ r ∈ rs,
        dlookup r ("updated_at") = some (JValue.str ts)) ∧
    (∀ ts c ys fields r,
        processYearEntry ts c ys (JValue.obj fields) = .ok (some r) →
        dlookup r ("extracted_at") = some (dgetD fields ("extracted_at") (JValue.str ts)) ∧
        dlookup r ("updated_at") = some (JValue.str ts)) := by
  constructor
  · intro ts entries rs h r hr
    obtain ⟨r0, hr0⟩ := flatten_ok_mem ts entries rs h r hr
    rw [hr0]
    exact dlookup_stampRecord_updated ts r0
  · intro ts c ys fields r h
    obtain ⟨fields2, heq, hrb, hcond⟩ := processYearEntry_ok_some_cases ts c ys _ r h
    injection heq with heq2
    subst heq2
    subst hrb
    exact ⟨buildRecord_extracted ts c ys fields hcond,
           buildRecord_updated ts c ys fields hcond⟩

/-- Claim C3 witness: a record with no pre-existing `extracted_at`
gets the run timestamp in both fields. -/
theorem c3_witness :
    dlookup [(("year"), JValue.num 2019), (("country"), JValue.str ("France")),
             (("extracted_at"), JValue.str ("T")), (("updated_at"), JValue.str ("T"))]
        ("updated_at") = some (JValue.str ("T")) ∧
    dlookup [(("year"), JValue.num 2019), (("country"), JValue.str ("France")),
             (("extracted_at"), JValue.str ("T")), (("updated_at"), JValue.str ("T"))]
        ("extracted_at") = some (JValue.str ("T")) :=
  ⟨c3_timestamps.1 ("T")
      [(("France"), JValue.obj [(("2019"), JValue.obj [(("year"), JValue.num 2019)])])]
      [[(("year"), JValue.num 2019), (("country"), JValue.str ("France")),
        (("extracted_at"), JValue.str ("T")), (("updated_at"), JValue.str ("T"))]] rfl
      _ (List.mem_cons_self _ _),
   ((c3_timestamps.2 ("T") ("France") ("2019") [(("year"), JValue.num 2019)]
      [(("year"), JValue.num 2019), (("country"), JValue.str ("France")),
       (("extracted_at"), JValue.str ("T")), (("updated_at"), JValue.str ("T"))] rfl).1).trans rfl⟩

/-- Claim C7: a country entry whose value is not a mapping is skipped
as a whole without aborting the run, and a single record whose year key
does not parse (and which embeds no `year` field) is skipped alone,
leaving sibling records of the same country untouched. -/
theorem c7_skip_policy :
    (∀ ts c v rest, isObj v = false →
        flatten ts ((c, v) :: rest) = flatten ts rest) ∧
    (∀ ts c ys fields rest, hasKey fields ("year") = false → parsePyInt ys = none →
        processYearEntries ts c ((ys, JValue.obj fields) :: rest)
          = processYearEntries ts c rest) := by
  constructor
  · intro ts c v rest h
    rw [flatten, flattenCountry_not_obj ts c v h]
    cases hres : flatten ts rest with
    | error e => rfl
    | ok rs2 => simp
  · intro ts c ys fields rest h1 h2
    rw [processYearEntries, processYearEntry_obj, h1, h2]
    simp

/-- Claim C7 witness: a malformed year entry is dropped while its
sibling survives, and a non-mapping country entry is dropped whole. -/
theorem c7_witness :
    processYearEntries ("T") ("Spain")
        [(("bad"), JValue.obj []),
         (("2020"), JValue.obj [(("year"), JValue.num 2020)])]
      = processYearEntries ("T") ("Spain")
        [(("2020"), JValue.obj [(("year"), JValue.num 2020)])] ∧
    flatten ("T") [(("Atlantis"), JValue.num 5)] = flatten ("T") [] :=
  ⟨c7_skip_policy.2 ("T") ("Spain") ("bad") []
      [(("2020"), JValue.obj [(("year"), JValue.num 2020)])] rfl rfl,
   c7_skip_policy.1 ("T") ("Atlantis") (JValue.num 5) [] rfl⟩

/-- Claim C8: embedded `country`/`year` fields survive into the output
record even when they disagree with the outer and inner keys, and the
positional keys are injected only when the corresponding field is
absent. -/
theorem c8_embedded_fields_win :
    ∀ ts c ys fields r,
      processYearEntry ts c ys (JValue.obj fields) = .ok (some r) →
      (hasKey fields ("country") = true →
          dlookup r ("country") = dlookup fields ("country")) ∧
      (hasKey fields ("year") = true →
          dlookup r ("year") = dlookup fields ("year")) ∧
      (hasKey fields ("country") = false →
          dlookup r ("country") = some (JValue.str c)) ∧
      (∀ y, hasKey fields ("year") = false → parsePyInt ys = some y →
          dlookup r ("year") = some (JValue.num (y : ℚ))) := by
  intro ts c ys fields r h
  obtain ⟨fields2, heq, hrb, hcond⟩ := processYearEntry_ok_some_cases ts c ys _ r h
  injection heq with heq2
  subst heq2
  subst hrb
  refine ⟨fun hck => buildRecord_country_kept ts c ys fields hck,
          fun hyk => buildRecord_year_kept ts c ys fields hyk,
          fun hck => buildRecord_country_injected ts c ys fields hck hcond,
          fun y hyk hp => buildRecord_year_injected ts c ys fields y hyk hp⟩

/-- Claim C8 witness: embedded `country = "Bolivia"`, `year = 1999`
disagree with the outer key `"France"` and inner key `"2019"`, yet the
output record keeps the embedded values. -/
theorem c8_witness :
    dlookup [(("country"), JValue.str ("Bolivia")), (("year"), JValue.num 1999),
             (("extracted_at"), JValue.str ("T")), (("updated_at"), JValue.str ("T"))]
        ("country") = some (JValue.str ("Bolivia")) ∧
    dlookup [(("country"), JValue.str ("Bolivia")), (("year"), JValue.num 1999),
             (("extracted_at"), JValue.str ("T")), (("updated_at"), JValue.str ("T"))]
        ("year") = some (JValue.num 1999) :=
  ⟨((c8_embedded_fields_win ("T") ("France") ("2019")
      [(("country"), JValue.str ("Bolivia")), (("year"), JValue.num 1999)]
      [(("country"), JValue.str ("Bolivia")), (("year"), JValue.num 1999),
       (("extracted_at"), JValue.str ("T")), (("updated_at"), JValue.str ("T"))]
      rfl).1 rfl).trans rfl,
   ((c8_embedded_fields_win ("T") ("France") ("2019")
      [(("country"), JValue.str ("Bolivia")), (("year"), JValue.num 1999)]
      [(("country"), JValue.str ("Bolivia")), (("year"), JValue.num 1999),
       (("extracted_at"), JValue.str ("T")), (("updated_at"), JValue.str ("T"))]
      rfl).2.1 rfl).trans rfl⟩

theorem dlookup_mapCols (cols : List String) (f : String → JValue) (k : String) :
    dlookup (cols.map (fun c => (c, f c))) k
      = if k ∈ cols then some (f k) else none := by
  induction cols with
  | nil => simp [dlookup]
  | cons c cs ih =>
    by_cases hck : c = k
    · subst hck
      simp [dlookup]
    · have hkc : ¬(k = c) := fun hh => hck hh.symm
      simp [dlookup, hck, ih, List.mem_cons, hkc]

/-- Claim C2 (counterexample): `{"Japan": {"2020": "oops"}}` has a
mapping root, yet the loader pipeline raises inside the flattening loop
(`"oops".copy()` does not exist) before any numeric coercion happens,
so flatten does not "never raise" on mapping-root documents. -/
theorem c2_counterexample :
    loaderPipeline (JValue.obj [(("Japan"), JValue.obj [(("2020"), JValue.str ("oops"))])])
        ("T") = some (.error ()) :=
  rfl

/-- Claim C2 (amended): for every StructuredDocument whose root is a
mapping and in which every inner value of every mapping-valued country
entry is itself a mapping, the flattening loop and the numeric coercion
complete without raising, and every value left in the five
numeric-coerced columns is either null or a number — a value that
cannot be coerced becomes null, never an error. -/
theorem c2_coercion_never_raises (ts : String) (entries : List (String × JValue))
    (h : allInnerDicts entries = true) :
    ∃ rs, loaderPipeline (JValue.obj entries) ts = some (.ok rs) ∧
      ∀ r ∈ rs, ∀ c v, numericCols.contains c = true → dlookup r c = some v →
        v = JValue.null ∨ ∃ q, v = JValue.num q := by
  refine ⟨dfRecords (flattenSpec ts entries), ?_, ?_⟩
  · simp only [loaderPipeline, flatten_eq_flattenSpec ts entries h, Except.map]
  · intro r hr c v hc hv
    simp only [dfRecords, List.mem_map] at hr
    obtain ⟨r0, _, hr0⟩ := hr
    rw [← hr0, dlookup_mapCols] at hv
    by_cases hmem : c ∈ dfColumns (flattenSpec ts entries)
    · rw [if_pos hmem] at hv
      injection hv with hv2
      rw [← hv2]
      simp only [dfCell, hc, if_true]
      cases coerceNumeric (dgetD r0 c JValue.null) with
      | none => exact Or.inl rfl
      | some q => exact Or.inr ⟨q, rfl⟩
    · rw [if_neg hmem] at hv
      exact Option.noConfusion hv

/-- Claim C2 witness: a record whose `marriage_rate` is a non-numeric
string and whose timestamps are ISO strings flattens and coerces
without error. -/
theorem c2_witness :
    allInnerDicts [(("Japan"), JValue.obj [(("2020"),
        JValue.obj [(("marriage_rate"), JValue.str ("six-ish"))])])] = true ∧
    (∃ rs, loaderPipeline (JValue.obj [(("Japan"), JValue.obj [(("2020"),
        JValue.obj [(("marriage_rate"), JValue.str ("six-ish"))])])]) ("T")
        = some (.ok rs) ∧
      ∀ r ∈ rs, ∀ c v, numericCols.contains c = true → dlookup r c = some v →
        v = JValue.null ∨ ∃ q, v = JValue.num q) :=
  ⟨rfl, c2_coercion_never_raises ("T")
    [(("Japan"), JValue.obj [(("2020"),
        JValue.obj [(("marriage_rate"), JValue.str ("six-ish"))])])] rfl⟩

theorem selectLoop_of_firstQualifying_some (q : String → Option Element) :
    ∀ sels e, firstQualifying q sels = some e → selectLoop q sels = some e := by
  intro sels
  induction sels with
  | nil => intro e h; exact Option.noConfusion h
  | cons s rest ih =>
    intro e h
    cases rest with
    | nil =>
      cases hq : q s with
      | none =>
        simp only [firstQualifying, hq] at h
        exact Option.noConfusion h
      | some x =>
        simp only [firstQualifying, hq] at h
        show q s = some e
        rw [hq]
        by_cases hlen : 1000 < x.textLen
        · rw [if_pos hlen] at h
          exact h
        · rw [if_neg hlen] at h
          exact Option.noConfusion h
    | cons s2 rest2 =>
      cases hq : q s with
      | none =>
        simp only [firstQualifying, hq] at h
        simp only [selectLoop, hq]
        exact ih e h
      | some x =>
        simp only [firstQualifying, hq] at h
        simp only [selectLoop, hq]
        by_cases hlen : 1000 < x.textLen
        · rw [if_pos hlen] at h ⊢
          exact h
        · rw [if_neg hlen] at h ⊢
          exact ih e h

theorem selectLoop_of_firstQualifying_none (q : String → Option Element) :
    ∀ sels s, firstQualifying q sels = none → sels.getLast? = some s →
      selectLoop q sels = q s := by
  intro sels
  induction sels with
  | nil => intro s h hl; exact Option.noConfusion hl
  | cons s1 rest ih =>
    intro s h hl
    cases rest with
    | nil =>
      injection hl with hl2
      subst hl2
      rfl
    | cons s2 rest2 =>
      rw [List.getLast?_cons_cons] at hl
      cases hq : q s1 with
      | none =>
        simp only [firstQualifying, hq] at h
        simp only [selectLoop, hq]
        exact ih s h hl
      | some x =>
        simp only [firstQualifying, hq] at h
        simp only [selectLoop, hq]
        by_cases hlen : 1000 < x.textLen
        · rw [if_pos hlen] at h
          exact Option.noConfusion h
        · rw [if_neg hlen] at h ⊢
          exact ih s h hl

/-- Claim C4 (counterexample): a page where only `.entry-content`
matches — with 500 characters of text, below the 1000-character
threshold — and a `body` is present. No selector qualifies, so the
claim says the body is used; the code instead uses the unqualifying
`.entry-content` element, because the loop leaves `main_content` bound
to the last selector's match. -/
theorem c4_counterexample :
    extractMain (fun s => if s = (".entry-content") then some ⟨500⟩ else none)
        (some ⟨7⟩) = .ok ⟨500⟩ ∧
    extractMainSpec (fun s => if s = (".entry-content") then some ⟨500⟩ else none)
        (some ⟨7⟩) = .ok ⟨7⟩ ∧
    (⟨500⟩ : Element) ≠ ⟨7⟩ :=
  ⟨rfl, rfl, by decide⟩

/-- Claim C4 (amended): the extractor picks the first selector among
`main`, `article` and the content-class selectors whose extracted text
exceeds 1000 characters; when no selector qualifies, it uses the
element matched by the last selector (`.entry-content`) if there is
one, falls back to the full body only otherwise, and raises when the
body is also absent. -/
theorem c4_selector_fallback :
    (∀ (q : String → Option Element) (body : Option Element) e,
        firstQualifying q contentSelectors = some e →
        extractMain q body = .ok e) ∧
    (∀ (q : String → Option Element) (body : Option Element),
        firstQualifying q contentSelectors = none →
        extractMain q body =
          match q (".entry-content"), body with
          | some e, _ => .ok e
          | none, some b => .ok b
          | none, none => .error ()) := by
  constructor
  · intro q body e h
    unfold extractMain
    rw [selectLoop_of_firstQualifying_some q contentSelectors e h]
  · intro q body h
    unfold extractMain
    rw [selectLoop_of_firstQualifying_none q contentSelectors
      (".entry-content") h rfl]
    cases q (".entry-content") with
    | some e => rfl
    | none => cases body with
      | some b => rfl
      | none => rfl

/-- Claim C4 witness: with a qualifying `main` element of 2000
characters and no body, the extractor returns that element. -/
theorem c4_witness :
    firstQualifying (fun s => if s = ("main") then some ⟨2000⟩ else none)
        contentSelectors = some ⟨2000⟩ ∧
    extractMain (fun s => if s = ("main") then some ⟨2000⟩ else none) none
      = .ok ⟨2000⟩ :=
  ⟨rfl, c4_selector_fallback.1 (fun s => if s = ("main") then some ⟨2000⟩ else none)
      none ⟨2000⟩ rfl⟩

/-- Claim C5 (counterexample): the payload `[]` is valid JSON whose
root is not a mapping; the claim says such a failure persists nothing,
but the structurer persists it verbatim (the root-mapping check lives
in the loader, which runs after the artifact is written). -/
theorem c5_counterexample :
    structurerPersist (some (JValue.arr [])) = some (JValue.arr []) ∧
    isObj (JValue.arr []) = false :=
  ⟨rfl, rfl⟩

/-- Claim C5 (amended): the structurer aborts with nothing persisted
exactly when the payload is not valid JSON; a valid payload is
persisted verbatim even when its root is not a mapping, and the
non-mapping root is instead rejected by the loader, which returns
before the flattening loop runs. -/
theorem c5_schema_failure_split :
    (∀ p : Option JValue, (structurerPersist p).isNone = p.isNone) ∧
    (∀ (v : JValue) (ts : String), (loaderPipeline v ts).isNone = !(isObj v)) := by
  constructor
  · intro p
    cases p with
    | none => rfl
    | some v => rfl
  · intro v ts
    cases v with
    | null => rfl
    | bool b => rfl
    | num q => rfl
    | str s2 => rfl
    | arr es => rfl
    | obj fields => rfl

/-- Claim C9: the content filter drops `"1,234 (56%)"` (it is purely
digits/punctuation — and, being 11 characters, already falls to the
length check), drops `"Share this article"` (its lowercase form
contains the boilerplate keyword `"share"`), and keeps
`"Marriage rates fell sharply after 1970."`. -/
theorem c9_line_filter :
    keepLine (pyStrip ("1,234 (56%)").toList) = false ∧
    isNumericPunctLine (("1,234 (56%)").toList) = true ∧
    keepLine (pyStrip ("Share this article").toList) = false ∧
    hasSubList (("share").toList) (pyLower (("Share this article").toList)) = true ∧
    keepLine (pyStrip ("Marriage rates fell sharply after 1970.").toList) = true ∧
    cleanLines [("1,234 (56%)"), ("Share this article"),
                ("Marriage rates fell sharply after 1970.")]
      = [("Marriage rates fell sharply after 1970.")] :=
  ⟨rfl, rfl, rfl, rfl, rfl, rfl⟩

theorem any_key_map_preserve (t : List Row) (f : Row → Row)
    (hf : ∀ x, rkey (f x) = rkey x) (k : String × Int) :
    (t.map f).any (fun x => rkey x = k) = t.any (fun x => rkey x = k) := by
  induction t with
  | nil => rfl
  | cons r rest ih =>
    simp only [List.map_cons, List.any_cons, ih, hf r]

theorem nodupKeys_map_keyPreserve (t : List Row) (f : Row → Row)
    (hf : ∀ x, rkey (f x) = rkey x) (h : nodupKeys t = true) :
    nodupKeys (t.map f) = true := by
  induction t with
  | nil => rfl
  | cons r rest ih =>
    simp only [nodupKeys, Bool.and_eq_true] at h
    obtain ⟨h1, h2⟩ := h
    simp only [List.map_cons, nodupKeys, Bool.and_eq_true]
    constructor
    · rw [hf r, any_key_map_preserve rest f hf (rkey r)]
      exact h1
    · exact ih h2

theorem nodupKeys_append_single (t : List Row) (r : Row) (h : nodupKeys t = true)
    (hany : t.any (fun x => rkey x = rkey r) = false) :
    nodupKeys (t ++ [r]) = true := by
  induction t with
  | nil => rfl
  | cons a rest ih =>
    simp only [nodupKeys, Bool.and_eq_true] at h
    obtain ⟨h1, h2⟩ := h
    rw [List.any_cons] at hany
    have ha : (decide (rkey a = rkey r)) = false := by
      cases hd : (decide (rkey a = rkey r)) with
      | false => rfl
      | true => rw [hd, Bool.true_or] at hany; exact Bool.noConfusion hany
    rw [ha, Bool.false_or] at hany
    simp only [List.cons_append, nodupKeys, Bool.and_eq_true]
    constructor
    · rw [List.append_eq, List.any_append]
      have hr : ([r].any (fun x => rkey x = rkey a)) = false := by
        simp only [List.any_cons, List.any_nil, Bool.or_false, decide_eq_false_iff_not]
        simp only [decide_eq_false_iff_not] at ha
        exact fun hh => ha hh.symm
      rw [hr, Bool.or_false]
      exact h1
    · exact ih h2 hany

theorem nodupKeys_upsertRow (t : List Row) (r : Row) (h : nodupKeys t = true) :
    nodupKeys (upsertRow t r) = true := by
  unfold upsertRow
  by_cases hany : t.any (fun x => rkey x = rkey r) = true
  · rw [if_pos hany]
    apply nodupKeys_map_keyPreserve t _ _ h
    intro x
    by_cases hx : rkey x = rkey r
    · rw [if_pos hx, hx]
    · rw [if_neg hx]
  · rw [if_neg hany]
    apply nodupKeys_append_single t r h
    cases hb : t.any (fun x => rkey x = rkey r) with
    | true => exact absurd hb hany
    | false => rfl

theorem find?_map_replace_hit (t : List Row) (r : Row)
    (hany : t.any (fun x => rkey x = rkey r) = true) :
    (t.map (fun x => if rkey x = rkey r then r else x)).find?
        (fun x => rkey x = rkey r) = some r := by
  induction t with
  | nil => simp at hany
  | cons a rest ih =>
    by_cases ha : rkey a = rkey r
    · simp only [List.map_cons, if_pos ha]
      exact List.find?_cons_of_pos _ (by simp)
    · simp only [List.map_cons, if_neg ha]
      rw [List.find?_cons_of_neg _ (by simp [ha])]
      apply ih
      rw [List.any_cons] at hany
      have hd : (decide (rkey a = rkey r)) = false := by simp [ha]
      rw [hd, Bool.false_or] at hany
      exact hany

theorem find?_map_replace_miss (t : List Row) (r : Row) (k : String × Int)
    (hk : ¬(rkey r = k)) :
    (t.map (fun x => if rkey x = rkey r then r else x)).find? (fun x => rkey x = k)
      = t.find? (fun x => rkey x = k) := by
  induction t with
  | nil => rfl
  | cons a rest ih =>
    by_cases ha : rkey a = rkey r
    · have hak : ¬(rkey a = k) := by rw [ha]; exact hk
      simp only [List.map_cons, if_pos ha]
      rw [List.find?_cons_of_neg _ (by simp [hk]),
        List.find?_cons_of_neg _ (by simp [hak])]
      exact ih
    · simp only [List.map_cons, if_neg ha]
      by_cases hak : rkey a = k
      · rw [List.find?_cons_of_pos _ (by simp [hak]),
          List.find?_cons_of_pos _ (by simp [hak])]
      · rw [List.find?_cons_of_neg _ (by simp [hak]),
          List.find?_cons_of_neg _ (by simp [hak])]
        exact ih

theorem find?_append_single (t : List Row) (r : Row) (p : Row → Bool) :
    (t ++ [r]).find? p
      = match t.find? p with
        | some x => some x
        | none => if p r then some r else none := by
  induction t with
  | nil =>
    cases hp : p r with
    | true => simp [List.find?, hp]
    | false => simp [List.find?, hp]
  | cons a rest ih =>
    cases hp : p a with
    | true =>
      rw [List.cons_append, List.find?_cons_of_pos _ hp, List.find?_cons_of_pos _ hp]
    | false =>
      rw [List.cons_append, List.find?_cons_of_neg _ (by simp [hp]),
        List.find?_cons_of_neg _ (by simp [hp]), ih]

theorem findByKey_upsertRow (t : List Row) (r : Row) (k : String × Int) :
    findByKey (upsertRow t r) k = if rkey r = k then some r else findByKey t k := by
  unfold upsertRow findByKey
  by_cases hany : t.any (fun x => rkey x = rkey r) = true
  · rw [if_pos hany]
    by_cases hk : rkey r = k
    · rw [if_pos hk]
      subst hk
      exact find?_map_replace_hit t r hany
    · rw [if_neg hk]
      exact find?_map_replace_miss t r k hk
  · rw [if_neg hany, find?_append_single]
    by_cases hk : rkey r = k
    · rw [if_pos hk]
      have hnone : t.find? (fun x => rkey x = k) = none := by
        subst hk
        cases hf : t.find? (fun x => rkey x = rkey r) with
        | none => rfl
        | some x =>
          have hx := List.find?_some hf
          have hmem := List.mem_of_find?_eq_some hf
          have : t.any (fun x => rkey x = rkey r) = true :=
            List.any_eq_true.mpr ⟨x, hmem, hx⟩
          exact absurd this hany
      rw [hnone]
      simp [hk]
    · rw [if_neg hk]
      cases hf : t.find? (fun x => rkey x = k) with
      | some x => rfl
      | none => simp [hk]

theorem findByKey_upsertBatch (rs : List Row) : ∀ (t : List Row) (k : String × Int),
    findByKey (upsertBatch t rs) k
      = match lastWithKey rs k with
        | some x => some x
        | none => findByKey t k := by
  induction rs with
  | nil => intro t k; rfl
  | cons r rest ih =>
    intro t k
    show findByKey (upsertBatch (upsertRow t r) rest) k = _
    rw [ih (upsertRow t r) k]
    cases hl : lastWithKey rest k with
    | some x => simp only [lastWithKey, hl]
    | none =>
      simp only [lastWithKey, hl]
      rw [findByKey_upsertRow]
      by_cases hk : rkey r = k
      · simp [hk]
      · simp [hk]

theorem nodupKeys_upsertBatch (rs : List Row) : ∀ (t : List Row),
    nodupKeys t = true → nodupKeys (upsertBatch t rs) = true := by
  induction rs with
  | nil => intro t h; exact h
  | cons r rest ih =>
    intro t h
    exact ih (upsertRow t r) (nodupKeys_upsertRow t r h)

/-- Claim C6: upserting the same batch twice into a table with unique
keys leaves unique keys (exactly one row per `(country, year)`), and
the row stored under any key the batch carries equals the last batch
record with that key — last-write-wins, with the fields of the second
(identical) batch. -/
theorem c6_upsert_idempotent (t rs : List Row) (h : nodupKeys t = true) :
    nodupKeys (upsertBatch (upsertBatch t rs) rs) = true ∧
    ∀ k x, lastWithKey rs k = some x →
      findByKey (upsertBatch (upsertBatch t rs) rs) k = some x := by
  constructor
  · exact nodupKeys_upsertBatch rs _ (nodupKeys_upsertBatch rs t h)
  · intro k x hx
    rw [findByKey_upsertBatch rs (upsertBatch t rs) k, hx]

/-- Claim C6 witness: one record upserted twice into the empty table
is stored once, under its key, with its own fields. -/
theorem c6_witness :
    nodupKeys ([] : List Row) = true ∧
    nodupKeys (upsertBatch (upsertBatch []
        [⟨("France"), 2019, some 3, some 1, none, none⟩])
        [⟨("France"), 2019, some 3, some 1, none, none⟩]) = true ∧
    findByKey (upsertBatch (upsertBatch []
        [⟨("France"), 2019, some 3, some 1, none, none⟩])
        [⟨("France"), 2019, some 3, some 1, none, none⟩]) ((("France"), 2019))
      = some ⟨("France"), 2019, some 3, some 1, none, none⟩ :=
  ⟨rfl,
   (c6_upsert_idempotent [] [⟨("France"), 2019, some 3, some 1, none, none⟩] rfl).1,
   (c6_upsert_idempotent [] [⟨("France"), 2019, some 3, some 1, none, none⟩] rfl).2
     ((("France"), 2019)) ⟨("France"), 2019, some 3, some 1, none, none⟩ rfl⟩

theorem take_set_of_le {α : Type} (l : List α) (i n : Nat) (a : α) (h : n ≤ i) :
    (l.set i a).take n = l.take n := by
  induction l generalizing i n with
  | nil => simp
  | cons hd tl ih =>
    cases i with
    | zero =>
      have hn : n = 0 := Nat.le_zero.mp h
      subst hn
      simp
    | succ j =>
      cases n with
      | zero => simp
      | succ m =>
        simp only [List.set_cons_succ, List.take_succ_cons]
        rw [ih j m (Nat.le_of_succ_le_succ h)]

theorem heapExt_refl (h : Heap) : HeapExt h h :=
  ⟨Nat.le_refl _, List.take_length h⟩

theorem heapExt_trans {h1 h2 h3 : Heap}
    (a : HeapExt h1 h2) (b : HeapExt h2 h3) : HeapExt h1 h3 := by
  obtain ⟨l1, t1⟩ := a
  obtain ⟨l2, t2⟩ := b
  refine ⟨Nat.le_trans l1 l2, ?_⟩
  have hh : h3.take h1.length = (h3.take h2.length).take h1.length := by
    rw [List.take_take, Nat.min_eq_left l1]
  rw [hh, t2, t1]

theorem good_heapSet (h h' : Heap) (k : String) (v : JValue)
    (hl : h'.length = h.length + 1) (ht : h'.take h.length = h) :
    (heapSet h' h.length k v).length = h.length + 1 ∧
      (heapSet h' h.length k v).take h.length = h := by
  unfold heapSet
  constructor
  · rw [List.length_set, hl]
  · rw [take_set_of_le h' h.length h.length _ (Nat.le_refl _), ht]

theorem good_stampH (ts : String) (h h' : Heap)
    (hl : h'.length = h.length + 1) (ht : h'.take h.length = h) :
    (stampH ts h' h.length).length = h.length + 1 ∧
      (stampH ts h' h.length).take h.length = h := by
  unfold stampH
  obtain ⟨hl1, ht1⟩ := good_heapSet h h'
    ("extracted_at") (dgetD (h'.getD h.length []) ("extracted_at") (JValue.str ts)) hl ht
  exact good_heapSet h _ ("updated_at") (JValue.str ts) hl1 ht1

theorem heapExt_processYearEntryH (ts c ys : String) (yd : HInner) (h : Heap) :
    HeapExt h (processYearEntryH ts c ys yd h).2 := by
  cases yd with
  | hval v => exact heapExt_refl h
  | href a =>
    have g1 : (h ++ [h.getD a []]).length = h.length + 1 ∧
        (h ++ [h.getD a []]).take h.length = h := by
      constructor
      · simp
      · exact List.take_left h _
    obtain ⟨gl1, gt1⟩ := g1
    simp only [processYearEntryH]
    by_cases hc : hasKey ((h ++ [h.getD a []]).getD h.length []) ("country") = true
    · rw [if_pos hc]
      by_cases hy : hasKey ((h ++ [h.getD a []]).getD h.length []) ("year") = true
      · rw [if_pos hy]
        obtain ⟨sl, st⟩ := good_stampH ts h _ gl1 gt1
        exact ⟨by rw [sl]; exact Nat.le_succ _, st⟩
      · rw [if_neg hy]
        cases hp : parsePyInt ys with
        | some y =>
          obtain ⟨kl, kt⟩ := good_heapSet h _ ("year") (JValue.num (y : ℚ)) gl1 gt1
          obtain ⟨sl, st⟩ := good_stampH ts h _ kl kt
          exact ⟨by rw [sl]; exact Nat.le_succ _, st⟩
        | none =>
          exact ⟨by rw [gl1]; exact Nat.le_succ _, gt1⟩
    · rw [if_neg hc]
      obtain ⟨cl, ct⟩ := good_heapSet h _ ("country") (JValue.str c) gl1 gt1
      by_cases hy : hasKey ((heapSet (h ++ [h.getD a []]) h.length ("country")
          (JValue.str c)).getD h.length []) ("year") = true
      · rw [if_pos hy]
        obtain ⟨sl, st⟩ := good_stampH ts h _ cl ct
        exact ⟨by rw [sl]; exact Nat.le_succ _, st⟩
      · rw [if_neg hy]
        cases hp : parsePyInt ys with
        | some y =>
          obtain ⟨kl, kt⟩ := good_heapSet h _ ("year") (JValue.num (y : ℚ)) cl ct
          obtain ⟨sl, st⟩ := good_stampH ts h _ kl kt
          exact ⟨by rw [sl]; exact Nat.le_succ _, st⟩
        | none =>
          exact ⟨by rw [cl]; exact Nat.le_succ _, ct⟩

theorem heapExt_processYearEntriesH (ts c : String) :
    ∀ (yes : List (String × HInner)) (h : Heap),
      HeapExt h (processYearEntriesH ts c yes h).2 := by
  intro yes
  induction yes with
  | nil => intro h; exact heapExt_refl h
  | cons ye rest ih =>
    intro h
    obtain ⟨ys, yd⟩ := ye
    rcases hp : processYearEntryH ts c ys yd h with ⟨res, h1⟩
    have e1 : HeapExt h h1 := by
      have := heapExt_processYearEntryH ts c ys yd h
      rw [hp] at this
      exact this
    cases res with
    | error e =>
      simp only [processYearEntriesH, hp]
      exact e1
    | ok o =>
      cases o with
      | none =>
        simp only [processYearEntriesH, hp]
        exact heapExt_trans e1 (ih h1)
      | some r =>
        simp only [processYearEntriesH, hp]
        rcases hrec : processYearEntriesH ts c rest h1 with ⟨res2, h2⟩
        have e2 : HeapExt h1 h2 := by
          have := ih h1
          rw [hrec] at this
          exact this
        cases res2 with
        | error e => exact heapExt_trans e1 e2
        | ok rs => exact heapExt_trans e1 e2

/-- Claim C10: flattening never mutates its input document. In the heap
model, the document's country entries and year keys are immutable
structure, and the inner record dicts live in heap cells; the loop
copies each inner record into a freshly appended cell before injecting
`country`, `year` and the timestamps, so after a run (even one aborted
by an exception) every pre-existing heap cell — in particular every
inner record the document references — is unchanged. -/
theorem c10_flatten_does_not_mutate_input (ts : String)
    (doc : List (String × HCountry)) (h : Heap) :
    HeapExt h (flattenH ts doc h).2 := by
  induction doc generalizing h with
  | nil => exact heapExt_refl h
  | cons ce rest ih =>
    obtain ⟨c, cv⟩ := ce
    cases cv with
    | hplain v => exact ih h
    | hdict yes =>
      rcases hp : processYearEntriesH ts c yes h with ⟨res, h1⟩
      have e1 : HeapExt h h1 := by
        have := heapExt_processYearEntriesH ts c yes h
        rw [hp] at this
        exact this
      cases res with
      | error e =>
        simp only [flattenH, hp]
        exact e1
      | ok rs1 =>
        simp only [flattenH, hp]
        rcases hrec : flattenH ts rest h1 with ⟨res2, h2⟩
        have e2 : HeapExt h1 h2 := by
          have := ih h1
          rw [hrec] at this
          exact this
        cases res2 with
        | error e => exact heapExt_trans e1 e2
        | ok rs2 => exact heapExt_trans e1 e2

end Demo
